import Mathlib

/-!
Verification of the multisignature-wallet front end.

The definitions below are a shallow embedding of the TypeScript sources:
the `TransactionsList` component (signature ordering, quorum check and
submission in `sendTransaction`, and the per-proposal action selection in
the rendered list), the `update-wallet-deployed` POST route and the
`fetch-wallets` GET route.  External collaborators (the bundler client,
the wallet extension, the database) are modelled as explicit parameters:
the bundler result is an `Except`, database operations act on an explicit
`DB` value and fail exactly where a Prisma `update` on a missing record
would throw.
-/

namespace AAWallet

/-- A wallet record: `id`, on-chain `address`, ordered `signers` list,
`threshold`, and the `isDeployed` flag, as stored in the database and
carried on `transaction.wallet`. -/
structure Wallet where
  id : Nat
  address : String
  signers : List String
  threshold : Nat
  isDeployed : Bool
  deriving DecidableEq

/-- A recorded signature row: the signer address and the signature bytes
(kept as a string, as in the source). -/
structure SignatureRec where
  signerAddress : String
  signature : String
  deriving DecidableEq

/-- The user-operation payload fields read by `sendTransaction`:
`sender`, `nonce`, `initCode` (a byte array), `callData`, and the two gas
price fields.  Byte arrays are lists of `Nat`, big numbers are `Nat`. -/
structure UserOp where
  sender : String
  nonce : Nat
  initCode : List Nat
  callData : String
  maxFeePerGas : Nat
  maxPriorityFeePerGas : Nat
  deriving DecidableEq

/-- A `TransactionWithSignatures` as consumed by the component: the
proposal id, its wallet, the user operation, the collected signatures, the
server-computed `pendingSigners` list, and the optional `txHash`. -/
structure TransactionRec where
  id : Nat
  wallet : Wallet
  userOp : UserOp
  signatures : List SignatureRec
  pendingSigners : List String
  txHash : Option String
  deriving DecidableEq

/-- The signature-ordering loop of `sendTransaction`: for each signer of
the wallet, in stored order, push the signature of every recorded
signature row whose `signerAddress` is (string-)equal to that signer.

```ts
transaction.wallet.signers.forEach((signer) => {
  transaction.signatures.forEach((signature) => {
    if (signature.signerAddress === signer) {
      orderedSignatures.push(signature.signature);
    }
  });
});
``` -/
def orderedSignatures (t : TransactionRec) : List String :=
  t.wallet.signers.flatMap fun signer =>
    t.signatures.filterMap fun s =>
      if s.signerAddress = signer then some s.signature else none

/-- The two kinds of failure `sendTransaction` can surface: the
incomplete-quorum throw (`"Fewer signatures received than expected"`) and
an error propagated from the bundler submission. -/
inductive SendError where
  | incompleteQuorum
  | submissionFailed (msg : String)
  deriving DecidableEq

/-- Observable side effects of `sendTransaction`, in order: the call to the
bundler (`client.sendUserOperation` on the built user operation) and the
persistence POST to `/api/update-wallet-deployed`. -/
inductive Effect where
  | submitOp (sender : String) (nonce : Nat) (initCode : List Nat)
      (callData : String) (sigs : List String)
      (maxFeePerGas maxPriorityFeePerGas : Nat)
  | persistDeployed (walletId transactionId : Nat) (txHash : Option String)
  deriving DecidableEq

/-- `sendTransaction`, modelled as a function from the transaction and the
bundler result (`.ok h` with the optional receipt hash, or `.error e`)
to the outcome of the call together with the list of external effects it
performed, in order.  The incomplete-quorum throw happens before the
bundler call and before the persistence POST, so in that case the effect
list is empty; a bundler failure happens after the bundler call but before
the POST. -/
def sendTransaction (t : TransactionRec)
    (bundlerResult : Except String (Option String)) :
    Except SendError Unit × List Effect :=
  let ordered := orderedSignatures t
  if ordered.length ≠ t.wallet.signers.length then
    (.error .incompleteQuorum, [])
  else
    let initCode := if t.wallet.isDeployed then [] else t.userOp.initCode
    let submit := Effect.submitOp t.userOp.sender t.userOp.nonce initCode
      t.userOp.callData ordered t.userOp.maxFeePerGas
      t.userOp.maxPriorityFeePerGas
    match bundlerResult with
    | .error e => (.error (.submissionFailed e), [submit])
    | .ok txHash =>
        (.ok (), [submit, .persistDeployed t.wallet.id t.id txHash])

/-- The JavaScript `String.prototype.toLowerCase()` method on the ASCII address
strings this application handles: lower-case every character. -/
def lowerStr (s : String) : String := ⟨s.data.map Char.toLower⟩

/-- The per-transaction action rendered by `TransactionsList`: the
Etherscan link when a `txHash` is recorded, else the execute button when
`pendingSigners` is empty, else the sign button when `pendingSigners`
contains the lowercased connected address, else the disabled button. -/
inductive UiAction where
  | viewOnEtherscan (txHash : String)
  | executeTxn
  | signTxn
  | noActionReqd
  deriving DecidableEq

/-- The action-selection conditional of the rendered transaction card
(`transaction.txHash ? ... : transaction.pendingSigners.length === 0 ?
... : transaction.pendingSigners.includes(address.toLowerCase()) ? ...`). -/
def uiAction (t : TransactionRec) (address : String) : UiAction :=
  match t.txHash with
  | some h => .viewOnEtherscan h
  | none =>
      if t.pendingSigners.length = 0 then .executeTxn
      else if t.pendingSigners.contains (lowerStr address) then .signTxn
      else .noActionReqd

/-- Modelled from the spec: the `pendingSigners` field is computed by the
`fetch-transactions` API route, which is not among the provided sources;
the spec says `recordSignature` "recomputes the pending-signer set (signer
set minus signed addresses)". -/
def pendingSignersSpec (signers : List String)
    (sigs : List SignatureRec) : List String :=
  signers.filter fun s => ¬ sigs.any fun g => g.signerAddress = s

/-- A transaction row as stored in the database, with the fields the
`update-wallet-deployed` route touches. -/
structure DBTxn where
  id : Nat
  txHash : Option String
  deriving DecidableEq

/-- The database state the two API routes act on. -/
structure DB where
  wallets : List Wallet
  txns : List DBTxn
  deriving DecidableEq

/-- `prisma.wallet.update({ where: { id }, data: { isDeployed: true } })`:
throws when no wallet row has the given id, otherwise sets the flag. -/
def prismaWalletSetDeployed (db : DB) (walletId : Nat) : Except Unit DB :=
  if db.wallets.any fun w => w.id = walletId then
    .ok { db with
      wallets := db.wallets.map fun w =>
        if w.id = walletId then { w with isDeployed := true } else w }
  else .error ()

/-- `prisma.transaction.update({ where: { id }, data: { txHash } })`:
throws when no transaction row has the given id; a `txHash` of `none`
models an absent (`undefined`) field, which Prisma leaves unchanged. -/
def prismaTxnSetHash (db : DB) (transactionId : Nat) (h : Option String) :
    Except Unit (DB × DBTxn) :=
  match db.txns.find? fun r => r.id = transactionId with
  | none => .error ()
  | some row =>
      let row' := match h with
        | none => row
        | some s => { row with txHash := some s }
      .ok ({ db with
        txns := db.txns.map fun r =>
          if r.id = transactionId then row' else r }, row')

/-- Responses of the `update-wallet-deployed` POST route: the updated
transaction row as JSON, or the caught-error JSON. -/
inductive PostResponse where
  | jsonTxn (t : DBTxn)
  | jsonError
  deriving DecidableEq

/-- The `update-wallet-deployed` POST handler: first the wallet update,
then the transaction update, each a separate database call; any throw is
caught and answered with an error JSON, leaving whatever was already
committed in place. -/
def updateWalletDeployedPOST (db : DB) (walletId transactionId : Nat)
    (txHash : Option String) : DB × PostResponse :=
  match prismaWalletSetDeployed db walletId with
  | .error _ => (db, .jsonError)
  | .ok db1 =>
      match prismaTxnSetHash db1 transactionId txHash with
      | .error _ => (db1, .jsonError)
      | .ok (db2, row) => (db2, .jsonTxn row)

/-- Responses of the `fetch-wallets` GET route: the found wallet row, the
JSON `null` that `findFirst` yields when nothing matches, or the
caught-error JSON. -/
inductive GetResponse where
  | jsonWallet (w : Wallet)
  | jsonNull
  | jsonError
  deriving DecidableEq

/-- The `fetch-wallets` GET handler.  `walletAddress` is the query
parameter (`none` when absent; the empty string is falsy in the
check `!walletAddress` of the source), `isAddr` stands for the external
`ethers.isAddress` predicate, and `dbOk` is false when the `findFirst`
database call itself throws.  Every throw is caught and answered with an
error JSON. -/
def fetchWalletsGET (walletAddress : Option String)
    (isAddr : String → Bool) (dbOk : Bool) (db : DB) : GetResponse :=
  match walletAddress with
  | none => .jsonError
  | some a =>
      if a = "" then .jsonError
      else if ¬ isAddr a then .jsonError
      else if ¬ dbOk then .jsonError
      else match db.wallets.find? fun w => w.address = a with
        | some w => .jsonWallet w
        | none => .jsonNull

/-- The per-signer block of the ordering loop: the signatures pushed while
the outer `forEach` visits the given signer. -/
def sigsFor (t : TransactionRec) (signer : String) : List String :=
  t.signatures.filterMap fun s =>
    if s.signerAddress = signer then some s.signature else none

/-- The number of pairs of a signer-list entry and a signature row whose
`signerAddress` equals that entry. -/
def numMatchingPairs (t : TransactionRec) : Nat :=
  (t.wallet.signers.product t.signatures).countP fun p =>
    p.2.signerAddress = p.1

lemma orderedSignatures_eq_flatMap (t : TransactionRec) :
    orderedSignatures t = t.wallet.signers.flatMap (sigsFor t) := rfl

lemma mem_sigsFor {t : TransactionRec} {s b : String} :
    b ∈ sigsFor t s ↔
      ∃ g ∈ t.signatures, g.signerAddress = s ∧ g.signature = b := by
  simp only [sigsFor, List.mem_filterMap]
  constructor
  · rintro ⟨g, hg, hif⟩
    by_cases h : g.signerAddress = s
    · rw [if_pos h] at hif
      exact ⟨g, hg, h, Option.some.inj hif⟩
    · rw [if_neg h] at hif
      exact absurd hif (by simp)
  · rintro ⟨g, hg, h, hb⟩
    exact ⟨g, hg, by rw [if_pos h, hb]⟩

lemma filterMapBlock_le_one {l : List SignatureRec}
    (huniq : l.Pairwise fun a b => a.signerAddress ≠ b.signerAddress)
    (s : String) :
    (l.filterMap fun g =>
      if g.signerAddress = s then some g.signature else none).length ≤ 1 := by
  induction l with
  | nil => simp
  | cons g rest ih =>
    rcases List.pairwise_cons.mp huniq with ⟨hg, hrest⟩
    by_cases h : g.signerAddress = s
    · have hnil : (rest.filterMap fun g =>
          if g.signerAddress = s then some g.signature else none) = [] := by
        rw [List.filterMap_eq_nil_iff]
        intro a ha
        rw [if_neg]
        intro hc
        exact hg a ha (by rw [h, hc])
      simp [List.filterMap_cons, h, hnil]
    · simpa [List.filterMap_cons, h] using ih hrest

lemma sigsFor_length_le_one {t : TransactionRec}
    (huniq : t.signatures.Pairwise fun a b =>
      a.signerAddress ≠ b.signerAddress) (s : String) :
    (sigsFor t s).length ≤ 1 :=
  filterMapBlock_le_one huniq s

lemma sigsFor_ne_nil {t : TransactionRec} {s : String}
    (h : ∃ g ∈ t.signatures, g.signerAddress = s) : sigsFor t s ≠ [] := by
  rcases h with ⟨g, hg, hs⟩
  intro hnil
  have hmem : g.signature ∈ sigsFor t s := mem_sigsFor.mpr ⟨g, hg, hs, rfl⟩
  rw [hnil] at hmem
  exact absurd hmem (List.not_mem_nil _)

lemma length_flatMap_le_of_blocks {α β : Type} (l : List α) (f : α → List β)
    (h : ∀ a ∈ l, (f a).length ≤ 1) : (l.flatMap f).length ≤ l.length := by
  induction l with
  | nil => simp
  | cons a rest ih =>
    simp only [List.flatMap_cons, List.length_append, List.length_cons]
    have h1 := h a (List.mem_cons_self ..)
    have h2 := ih fun b hb => h b (List.mem_cons_of_mem _ hb)
    omega

lemma blocks_eq_one {α β : Type} (l : List α) (f : α → List β)
    (h : ∀ a ∈ l, (f a).length ≤ 1)
    (hlen : (l.flatMap f).length = l.length) :
    ∀ a ∈ l, (f a).length = 1 := by
  induction l with
  | nil => simp
  | cons a rest ih =>
    simp only [List.flatMap_cons, List.length_append, List.length_cons]
      at hlen
    have h1 := h a (List.mem_cons_self ..)
    have hrestle := length_flatMap_le_of_blocks rest f
      fun b hb => h b (List.mem_cons_of_mem _ hb)
    intro b hb
    rcases List.mem_cons.mp hb with rfl | hbr
    · omega
    · exact ih (fun c hc => h c (List.mem_cons_of_mem _ hc)) (by omega) b hbr

lemma length_flatMap_of_blocks_one {α β : Type} (l : List α) (f : α → List β)
    (h : ∀ a ∈ l, (f a).length = 1) : (l.flatMap f).length = l.length := by
  induction l with
  | nil => simp
  | cons a rest ih =>
    simp only [List.flatMap_cons, List.length_append, List.length_cons]
    rw [h a (List.mem_cons_self ..),
      ih fun b hb => h b (List.mem_cons_of_mem _ hb)]
    omega

lemma getElem?_flatMap_of_blocks_one {α β : Type} (l : List α)
    (f : α → List β) (h : ∀ a ∈ l, (f a).length = 1) (i : Nat)
    (hi : i < l.length) :
    (l.flatMap f)[i]? = (f (l.get ⟨i, hi⟩)).head? := by
  induction l generalizing i with
  | nil => exact absurd hi (by simp)
  | cons a rest ih =>
    rcases List.length_eq_one.mp (h a (List.mem_cons_self ..)) with ⟨b, hb⟩
    cases i with
    | zero => simp [List.flatMap_cons, hb]
    | succ j =>
      have hj : j < rest.length := by simpa using hi
      simp only [List.flatMap_cons, hb, List.singleton_append,
        List.getElem?_cons_succ, List.get_cons_succ]
      exact ih (fun c hc => h c (List.mem_cons_of_mem _ hc)) j hj

lemma sum_map_le_length {α : Type} (l : List α) (f : α → Nat)
    (h : ∀ a ∈ l, f a ≤ 1) : (l.map f).sum ≤ l.length := by
  induction l with
  | nil => simp
  | cons a rest ih =>
    simp only [List.map_cons, List.sum_cons, List.length_cons]
    have h1 := h a (List.mem_cons_self ..)
    have h2 := ih fun b hb => h b (List.mem_cons_of_mem _ hb)
    omega

lemma sum_map_lt_length {α : Type} (l : List α) (f : α → Nat)
    (h : ∀ a ∈ l, f a ≤ 1) (h0 : ∃ a ∈ l, f a = 0) :
    (l.map f).sum < l.length := by
  induction l with
  | nil => rcases h0 with ⟨a, ha, _⟩; exact absurd ha (by simp)
  | cons a rest ih =>
    simp only [List.map_cons, List.sum_cons, List.length_cons]
    have h1 := h a (List.mem_cons_self ..)
    have hrest := fun b hb => h b (List.mem_cons_of_mem _ hb)
    rcases h0 with ⟨c, hc, hc0⟩
    rcases List.mem_cons.mp hc with rfl | hcr
    · have := sum_map_le_length rest f hrest
      omega
    · have := ih hrest ⟨c, hcr, hc0⟩
      omega

lemma sigsFor_length_eq_countP (t : TransactionRec) (s : String) :
    (sigsFor t s).length =
      t.signatures.countP fun g => g.signerAddress = s := by
  unfold sigsFor
  induction t.signatures with
  | nil => rfl
  | cons g rest ih =>
    by_cases h : g.signerAddress = s
    · simp [List.filterMap_cons, List.countP_cons, h, ih]
    · simp [List.filterMap_cons, List.countP_cons, h, ih]

/-! Concrete fixtures used by the witness theorems. -/

/-- A sample user operation. -/
def opEx : UserOp := ⟨"0xw", 0, [1, 2], "0xdeadbeef", 3, 2⟩

/-- A two-signer wallet, not yet deployed. -/
def walletAB : Wallet := ⟨1, "0xw", ["0xa", "0xb"], 2, false⟩

/-- Both signers signed, recorded in reverse of the stored signer order. -/
def txBothSigned : TransactionRec :=
  ⟨7, walletAB, opEx, [⟨"0xb", "sigB"⟩, ⟨"0xa", "sigA"⟩], [], none⟩

/-- No signature recorded yet. -/
def txNoSigs : TransactionRec :=
  ⟨8, walletAB, opEx, [], ["0xa", "0xb"], none⟩

/-- Two signatures, both from signer `0xa`; `0xb` never signed. -/
def txDupSig : TransactionRec :=
  ⟨9, walletAB, opEx, [⟨"0xa", "s1"⟩, ⟨"0xa", "s2"⟩], [], none⟩

/-- Claim C1: for every proposal whose submission proceeds past the
quorum-length check, the i-th ordered signature is the signature recorded
by the i-th signer in the stored signer order of the wallet, independent of the
order the signatures were recorded in (the hypothesis is the data-model
invariant that each signer records at most one signature per proposal). -/
theorem c1_ordered_signatures_follow_signer_order (t : TransactionRec)
    (huniq : t.signatures.Pairwise fun a b =>
      a.signerAddress ≠ b.signerAddress)
    (hlen : (orderedSignatures t).length = t.wallet.signers.length)
    (i : Nat) (hi : i < t.wallet.signers.length) :
    ∃ g ∈ t.signatures,
      g.signerAddress = t.wallet.signers.get ⟨i, hi⟩ ∧
      (orderedSignatures t)[i]? = some g.signature := by
  rw [orderedSignatures_eq_flatMap] at hlen
  have hble : ∀ s ∈ t.wallet.signers, (sigsFor t s).length ≤ 1 :=
    fun s _ => sigsFor_length_le_one huniq s
  have hb1 := blocks_eq_one _ _ hble hlen
  have hget := getElem?_flatMap_of_blocks_one t.wallet.signers (sigsFor t)
    hb1 i hi
  rcases List.length_eq_one.mp
    (hb1 (t.wallet.signers.get ⟨i, hi⟩) (List.get_mem ..)) with ⟨b, hbs⟩
  have hmem : b ∈ sigsFor t (t.wallet.signers.get ⟨i, hi⟩) := by
    rw [hbs]; exact List.mem_singleton.mpr rfl
  rcases mem_sigsFor.mp hmem with ⟨g, hg, hga, hgb⟩
  refine ⟨g, hg, hga, ?_⟩
  rw [orderedSignatures_eq_flatMap, hget, hbs, hgb]
  rfl

/-- Witness for C1 on a concrete two-signer proposal whose signatures were
recorded in reverse order: position 0 carries the signature of signer `0xa`. -/
theorem c1_witness :
    (txBothSigned.signatures.Pairwise fun a b =>
      a.signerAddress ≠ b.signerAddress) ∧
    (orderedSignatures txBothSigned).length =
      txBothSigned.wallet.signers.length ∧
    (0 : Nat) < txBothSigned.wallet.signers.length ∧
    ∃ g ∈ txBothSigned.signatures,
      g.signerAddress = txBothSigned.wallet.signers.get ⟨0, by decide⟩ ∧
      (orderedSignatures txBothSigned)[0]? = some g.signature :=
  ⟨by decide, by decide, by decide,
    c1_ordered_signatures_follow_signer_order txBothSigned (by decide)
      (by decide) 0 (by decide)⟩

/-- Claim C3: under the data-model invariants (no duplicate signer
addresses, at most one signature per signer) and executability (every
signer has signed), the ordered-signature sequence has length equal to the
signer count, so `sendTransaction` never takes the incomplete-quorum error
branch. -/
theorem c3_executable_implies_quorum_length (t : TransactionRec)
    (hnodup : t.wallet.signers.Nodup)
    (huniq : t.signatures.Pairwise fun a b =>
      a.signerAddress ≠ b.signerAddress)
    (hsigned : ∀ s ∈ t.wallet.signers,
      ∃ g ∈ t.signatures, g.signerAddress = s) :
    (orderedSignatures t).length = t.wallet.signers.length ∧
    ∀ br, (sendTransaction t br).1 ≠
      Except.error SendError.incompleteQuorum := by
  have hb1 : ∀ s ∈ t.wallet.signers, (sigsFor t s).length = 1 := by
    intro s hs
    have hle := sigsFor_length_le_one huniq s
    have hpos := List.length_pos.mpr (sigsFor_ne_nil (hsigned s hs))
    omega
  have hlen : (orderedSignatures t).length = t.wallet.signers.length := by
    rw [orderedSignatures_eq_flatMap]
    exact length_flatMap_of_blocks_one _ _ hb1
  refine ⟨hlen, fun br => ?_⟩
  rw [sendTransaction]
  simp only [hlen, ne_eq, not_true_eq_false, if_false, ite_false]
  cases br <;> simp

/-- Witness for C3 on the concrete fully-signed two-signer proposal. -/
theorem c3_witness :
    txBothSigned.wallet.signers.Nodup ∧
    (txBothSigned.signatures.Pairwise fun a b =>
      a.signerAddress ≠ b.signerAddress) ∧
    (∀ s ∈ txBothSigned.wallet.signers,
      ∃ g ∈ txBothSigned.signatures, g.signerAddress = s) ∧
    ((orderedSignatures txBothSigned).length =
        txBothSigned.wallet.signers.length ∧
      ∀ br, (sendTransaction txBothSigned br).1 ≠
        Except.error SendError.incompleteQuorum) :=
  ⟨by decide, by decide, by decide,
    c3_executable_implies_quorum_length txBothSigned (by decide) (by decide)
      (by decide)⟩

/-- Claim C4: when the ordered-signature count differs from the signer
count, `sendTransaction` throws the incomplete-quorum error before the
bundler call and before the persistence call: its effect list is empty. -/
theorem c4_incomplete_quorum_fails_before_effects (t : TransactionRec)
    (br : Except String (Option String))
    (h : (orderedSignatures t).length ≠ t.wallet.signers.length) :
    sendTransaction t br =
      (Except.error SendError.incompleteQuorum, []) := by
  rw [sendTransaction]
  exact if_pos h

/-- Witness for C4 on a concrete proposal with no signature recorded. -/
theorem c4_witness :
    (orderedSignatures txNoSigs).length ≠ txNoSigs.wallet.signers.length ∧
    sendTransaction txNoSigs (Except.ok none) =
      (Except.error SendError.incompleteQuorum, []) :=
  ⟨by decide,
    c4_incomplete_quorum_fails_before_effects txNoSigs (Except.ok none)
      (by decide)⟩

/-- Claim C10: the ordered-signature count equals the number of
(signer-entry, signature-row) pairs with equal addresses; and without the
uniqueness invariants the quorum-length check can pass although a signer
never signed, as the concrete proposal with two signatures from `0xa` and
none from `0xb` shows. -/
theorem c10_ordered_length_counts_matching_pairs :
    (∀ t : TransactionRec,
      (orderedSignatures t).length = numMatchingPairs t) ∧
    ((orderedSignatures txDupSig).length =
        txDupSig.wallet.signers.length ∧
      (∃ s ∈ txDupSig.wallet.signers,
        ∀ g ∈ txDupSig.signatures, g.signerAddress ≠ s) ∧
      (sendTransaction txDupSig (Except.ok none)).1 = Except.ok ()) := by
  constructor
  · intro t
    rw [orderedSignatures_eq_flatMap, List.length_flatMap]
    unfold numMatchingPairs
    rw [show t.wallet.signers.product t.signatures =
      t.wallet.signers.flatMap
        (fun s => t.signatures.map (Prod.mk s)) from rfl]
    rw [List.countP_flatMap]
    apply congrArg List.sum
    apply List.map_congr_left
    intro s _
    simp only [Function.comp_apply, Function.comp]
    rw [List.countP_map, sigsFor_length_eq_countP]
    rfl
  · exact ⟨by decide, by decide, by rfl⟩

/-- Witness for C10: the pair-count identity evaluated on the concrete
duplicated-signature proposal. -/
theorem c10_witness :
    (orderedSignatures txDupSig).length = numMatchingPairs txDupSig :=
  c10_ordered_length_counts_matching_pairs.1 txDupSig

lemma pendingSignersSpec_eq_nil_iff (signers : List String)
    (sigs : List SignatureRec) :
    pendingSignersSpec signers sigs = [] ↔
      ∀ s ∈ signers, ∃ g ∈ sigs, g.signerAddress = s := by
  rw [pendingSignersSpec, List.filter_eq_nil_iff]
  simp only [decide_eq_true_eq, not_not, List.any_eq_true]

lemma signature_addr_symm :
    Symmetric fun a b : SignatureRec =>
      a.signerAddress ≠ b.signerAddress :=
  fun _ _ h => h.symm

/-- Claim C2 (the pending-signer computation lives in the
`fetch-transactions` route, modelled from the spec as
`pendingSignersSpec`): for a wallet whose threshold equals its signer
count and a not-yet-submitted proposal satisfying the recording
invariants, the proposal is executable — pending set empty and the
execute action offered — iff every signer recorded exactly one valid
signature. -/
theorem c2_executable_iff_every_signer_signed (t : TransactionRec)
    (address : String) (valid : String → String → Bool)
    (hthr : t.wallet.threshold = t.wallet.signers.length)
    (hpend : t.pendingSigners =
      pendingSignersSpec t.wallet.signers t.signatures)
    (hnosub : t.txHash = none)
    (hvalid : ∀ g ∈ t.signatures,
      valid g.signerAddress g.signature = true)
    (huniq : t.signatures.Pairwise fun a b =>
      a.signerAddress ≠ b.signerAddress) :
    (t.pendingSigners = [] ∧ uiAction t address = UiAction.executeTxn) ↔
      ∀ s ∈ t.wallet.signers,
        (∃! g, g ∈ t.signatures ∧ g.signerAddress = s) ∧
        ∀ g ∈ t.signatures, g.signerAddress = s →
          valid g.signerAddress g.signature = true := by
  constructor
  · rintro ⟨hp, -⟩
    rw [hpend] at hp
    have hall := (pendingSignersSpec_eq_nil_iff ..).mp hp
    intro s hs
    rcases hall s hs with ⟨g, hg, hgs⟩
    refine ⟨⟨g, ⟨hg, hgs⟩, ?_⟩, fun g2 hg2 _ => hvalid g2 hg2⟩
    rintro y ⟨hy, hys⟩
    by_contra hne
    exact List.Pairwise.forall signature_addr_symm huniq hy hg hne
      (by rw [hys, hgs])
  · intro hall
    have hsig : ∀ s ∈ t.wallet.signers,
        ∃ g ∈ t.signatures, g.signerAddress = s := by
      intro s hs
      rcases (hall s hs).1 with ⟨g, ⟨hg, hgs⟩, -⟩
      exact ⟨g, hg, hgs⟩
    have hp : t.pendingSigners = [] := by
      rw [hpend]
      exact (pendingSignersSpec_eq_nil_iff ..).mpr hsig
    refine ⟨hp, ?_⟩
    simp [uiAction, hnosub, hp]

/-- Witness for C2 on the concrete fully-signed two-signer proposal
(validity verifier: accept everything). -/
theorem c2_witness :
    txBothSigned.wallet.threshold = txBothSigned.wallet.signers.length ∧
    txBothSigned.pendingSigners =
      pendingSignersSpec txBothSigned.wallet.signers
        txBothSigned.signatures ∧
    txBothSigned.txHash = none ∧
    ((txBothSigned.pendingSigners = [] ∧
        uiAction txBothSigned "0xa" = UiAction.executeTxn) ↔
      ∀ s ∈ txBothSigned.wallet.signers,
        (∃! g, g ∈ txBothSigned.signatures ∧ g.signerAddress = s) ∧
        ∀ g ∈ txBothSigned.signatures, g.signerAddress = s →
          (fun _ _ => true : String → String → Bool)
            g.signerAddress g.signature = true) :=
  ⟨rfl, by decide, rfl,
    c2_executable_iff_every_signer_signed txBothSigned "0xa"
      (fun _ _ => true) rfl (by decide) rfl (by decide) (by decide)⟩

/-- Claim C9: the ordering step matches addresses by exact string
equality while sign-eligibility lowercases the connected address; when
every signer has signed but some recorded signature address differs
from the stored signer entry only in letter case (all signatures
case-insensitively distinct), that signature is omitted, the ordered
output is shorter than the signer list, and submission fails the
quorum-length check with no external effect. -/
theorem c9_case_mismatch_breaks_quorum (t : TransactionRec)
    (address : String)
    (hciu : t.signatures.Pairwise fun a b =>
      lowerStr a.signerAddress ≠ lowerStr b.signerAddress)
    (hsigned : ∀ s ∈ t.wallet.signers, ∃ g ∈ t.signatures,
      lowerStr g.signerAddress = lowerStr s)
    (hbad : ∃ s ∈ t.wallet.signers, ∃ g ∈ t.signatures,
      lowerStr g.signerAddress = lowerStr s ∧ g.signerAddress ≠ s) :
    (orderedSignatures t).length < t.wallet.signers.length ∧
    (∀ br, sendTransaction t br =
      (Except.error SendError.incompleteQuorum, [])) ∧
    (t.txHash = none → t.pendingSigners ≠ [] →
      (uiAction t address = UiAction.signTxn ↔
        t.pendingSigners.contains (lowerStr address) = true)) := by
  have hsymml : Symmetric fun a b : SignatureRec =>
      lowerStr a.signerAddress ≠ lowerStr b.signerAddress :=
    fun _ _ h => h.symm
  have hexu : t.signatures.Pairwise fun a b =>
      a.signerAddress ≠ b.signerAddress :=
    hciu.imp fun h hc => h (congrArg lowerStr hc)
  rcases hbad with ⟨s, hsmem, g, hgmem, hgl, hgne⟩
  have hz : sigsFor t s = [] := by
    simp only [sigsFor]
    rw [List.filterMap_eq_nil_iff]
    intro g2 hg2
    rw [if_neg]
    intro hg2s
    have hgg2 : g ≠ g2 := by
      intro he
      rw [he] at hgne
      exact hgne hg2s
    exact List.Pairwise.forall hsymml hciu hgmem hg2 hgg2
      (by rw [hgl, hg2s])
  have hlt : (orderedSignatures t).length < t.wallet.signers.length := by
    rw [orderedSignatures_eq_flatMap, List.length_flatMap]
    exact sum_map_lt_length _ _
      (fun a _ => sigsFor_length_le_one hexu a)
      ⟨s, hsmem, by simp [Function.comp, hz]⟩
  refine ⟨hlt, fun br => ?_, fun hnone hpne => ?_⟩
  · rw [sendTransaction]
    exact if_pos (by omega)
  · have hlen0 : ¬ t.pendingSigners.length = 0 := by
      simpa [List.length_eq_zero] using hpne
    by_cases hc : t.pendingSigners.contains (lowerStr address) = true
    · simp [uiAction, hnone, hlen0, hc]
    · simp [uiAction, hnone, hlen0, hc]

/-- A one-signer wallet whose stored signer entry `0xA` differs in case
from the recorded signature address `0xa`. -/
def txCaseMismatch : TransactionRec :=
  ⟨10, ⟨2, "0xw2", ["0xA"], 1, false⟩, opEx, [⟨"0xa", "sa"⟩], [], none⟩

/-- Witness for C9 on the concrete case-mismatched proposal. -/
theorem c9_witness :
    (txCaseMismatch.signatures.Pairwise fun a b =>
      lowerStr a.signerAddress ≠ lowerStr b.signerAddress) ∧
    (∀ s ∈ txCaseMismatch.wallet.signers,
      ∃ g ∈ txCaseMismatch.signatures,
        lowerStr g.signerAddress = lowerStr s) ∧
    (∃ s ∈ txCaseMismatch.wallet.signers,
      ∃ g ∈ txCaseMismatch.signatures,
        lowerStr g.signerAddress = lowerStr s ∧ g.signerAddress ≠ s) ∧
    ((orderedSignatures txCaseMismatch).length <
        txCaseMismatch.wallet.signers.length ∧
      (∀ br, sendTransaction txCaseMismatch br =
        (Except.error SendError.incompleteQuorum, [])) ∧
      (txCaseMismatch.txHash = none → txCaseMismatch.pendingSigners ≠ [] →
        (uiAction txCaseMismatch "0xB" = UiAction.signTxn ↔
          txCaseMismatch.pendingSigners.contains (lowerStr "0xB") =
            true))) :=
  ⟨by decide, by decide, by decide,
    c9_case_mismatch_breaks_quorum txCaseMismatch "0xB" (by decide)
      (by decide) (by decide)⟩

lemma mem_map_setDeployed {db : DB} {wid : Nat} {w : Wallet}
    (hw : w ∈ db.wallets.map fun w0 =>
      if w0.id = wid then { w0 with isDeployed := true } else w0)
    (hid : w.id = wid) : w.isDeployed = true := by
  rcases List.mem_map.mp hw with ⟨w0, _, rfl⟩
  by_cases h0 : w0.id = wid
  · simp [h0]
  · rw [if_neg h0] at hid
    exact absurd hid h0

lemma mem_map_setHash {txns : List DBTxn} {tid : Nat} {row r : DBTxn}
    {h : String}
    (hr : r ∈ txns.map fun r0 =>
      if r0.id = tid then { row with txHash := some h } else r0)
    (hid : r.id = tid) : r.txHash = some h := by
  rcases List.mem_map.mp hr with ⟨r0, _, rfl⟩
  by_cases h0 : r0.id = tid
  · simp [h0]
  · rw [if_neg h0] at hid
    exact absurd hid h0

/-- The database row for the fixture proposal, before submission. -/
def dbFix : DB := ⟨[walletAB], [⟨7, none⟩]⟩

/-- Claim C7: on a successful submission the initialization payload handed
to the bundler is empty when the wallet is already deployed and equals the
stored `userOp.initCode` otherwise; on receiving the result hash the hash
is persisted on the proposal and the wallet is marked deployed. -/
theorem c7_submit_payload_and_persistence (t : TransactionRec) (h : String)
    (db : DB) (row : DBTxn)
    (hlen : (orderedSignatures t).length = t.wallet.signers.length)
    (hw : db.wallets.any (fun w => w.id = t.wallet.id) = true)
    (ht : db.txns.find? (fun r => r.id = t.id) = some row) :
    sendTransaction t (Except.ok (some h)) =
      (Except.ok (),
        [Effect.submitOp t.userOp.sender t.userOp.nonce
          (if t.wallet.isDeployed then [] else t.userOp.initCode)
          t.userOp.callData (orderedSignatures t)
          t.userOp.maxFeePerGas t.userOp.maxPriorityFeePerGas,
        Effect.persistDeployed t.wallet.id t.id (some h)]) ∧
    (∀ w ∈ (updateWalletDeployedPOST db t.wallet.id t.id
        (some h)).1.wallets, w.id = t.wallet.id → w.isDeployed = true) ∧
    (∀ r ∈ (updateWalletDeployedPOST db t.wallet.id t.id (some h)).1.txns,
      r.id = t.id → r.txHash = some h) ∧
    (updateWalletDeployedPOST db t.wallet.id t.id (some h)).2 ≠
      PostResponse.jsonError := by
  have hpost : updateWalletDeployedPOST db t.wallet.id t.id (some h) =
      (⟨db.wallets.map fun w0 =>
          if w0.id = t.wallet.id then { w0 with isDeployed := true }
          else w0,
        db.txns.map fun r0 =>
          if r0.id = t.id then { row with txHash := some h } else r0⟩,
       PostResponse.jsonTxn { row with txHash := some h }) := by
    simp [updateWalletDeployedPOST, prismaWalletSetDeployed,
      prismaTxnSetHash, hw, ht]
  refine ⟨?_, ?_, ?_, ?_⟩
  · rw [sendTransaction]
    rw [if_neg (by omega)]
  · rw [hpost]
    exact fun w hw2 hid => mem_map_setDeployed hw2 hid
  · rw [hpost]
    exact fun r hr hid => mem_map_setHash hr hid
  · rw [hpost]
    simp

/-- Witness for C7 on the fixture proposal and database. -/
theorem c7_witness :
    (orderedSignatures txBothSigned).length =
      txBothSigned.wallet.signers.length ∧
    dbFix.wallets.any (fun w => w.id = txBothSigned.wallet.id) = true ∧
    dbFix.txns.find? (fun r => r.id = txBothSigned.id) =
      some ⟨7, none⟩ ∧
    ((∀ w ∈ (updateWalletDeployedPOST dbFix txBothSigned.wallet.id
        txBothSigned.id (some "0xh")).1.wallets,
      w.id = txBothSigned.wallet.id → w.isDeployed = true) ∧
    (updateWalletDeployedPOST dbFix txBothSigned.wallet.id
        txBothSigned.id (some "0xh")).2 ≠ PostResponse.jsonError) :=
  ⟨by decide, by decide, by decide,
    (c7_submit_payload_and_persistence txBothSigned "0xh" dbFix ⟨7, none⟩
      (by decide) (by decide) (by decide)).2.1,
    (c7_submit_payload_and_persistence txBothSigned "0xh" dbFix ⟨7, none⟩
      (by decide) (by decide) (by decide)).2.2.2⟩

/-- Claim C8: the wallet-lookup handler answers with the stored wallet
when one matches, the null not-found signal when none matches, an error
response when the address parameter is missing, empty, or invalid, and an
error response (rather than an uncaught throw) when the lookup itself
fails. -/
theorem c8_wallet_lookup_total (walletAddress : Option String)
    (isAddr : String → Bool) (dbOk : Bool) (db : DB) :
    (∀ a, walletAddress = some a → a ≠ "" → isAddr a = true →
      dbOk = true →
      fetchWalletsGET walletAddress isAddr dbOk db =
        match db.wallets.find? fun w => w.address = a with
        | some w => GetResponse.jsonWallet w
        | none => GetResponse.jsonNull) ∧
    ((walletAddress = none ∨ walletAddress = some "" ∨
        ∃ a, walletAddress = some a ∧ isAddr a = false) →
      fetchWalletsGET walletAddress isAddr dbOk db =
        GetResponse.jsonError) ∧
    (∀ a, walletAddress = some a → a ≠ "" → isAddr a = true →
      dbOk = false →
      fetchWalletsGET walletAddress isAddr dbOk db =
        GetResponse.jsonError) := by
  refine ⟨?_, ?_, ?_⟩
  · rintro a rfl ha hia hdb
    rw [fetchWalletsGET]
    rw [if_neg ha, if_neg (not_not_intro hia), if_neg (not_not_intro hdb)]
  · rintro (rfl | rfl | ⟨a, rfl, hia⟩)
    · rfl
    · rw [fetchWalletsGET]
      rw [if_pos rfl]
    · by_cases ha : a = ""
      · rw [fetchWalletsGET, if_pos ha]
      · rw [fetchWalletsGET, if_neg ha, if_pos (by simp [hia])]
  · rintro a rfl ha hia hdb
    rw [fetchWalletsGET]
    rw [if_neg ha, if_neg (not_not_intro hia), if_pos (by simp [hdb])]

/-- Witness for C8: looking up the fixture wallet address finds it. -/
theorem c8_witness :
    (some walletAB.address = some walletAB.address) ∧
    walletAB.address ≠ "" ∧
    (fun _ : String => true) walletAB.address = true ∧
    fetchWalletsGET (some walletAB.address) (fun _ => true) true dbFix =
      GetResponse.jsonWallet walletAB :=
  ⟨rfl, by decide, rfl, by
    rw [(c8_wallet_lookup_total (some walletAB.address) (fun _ => true)
      true dbFix).1 walletAB.address rfl (by decide) rfl rfl]
    rfl⟩

/-- The wallet after its first successful submission, and the database
holding its recorded transaction hash. -/
def walletABDeployed : Wallet := ⟨1, "0xw", ["0xa", "0xb"], 2, true⟩

/-- Database state after a first submission recorded hash `0xaaa`. -/
def dbSubmitted : DB := ⟨[walletABDeployed], [⟨7, some "0xaaa"⟩]⟩

/-- The same proposal as seen by a stale client that fetched it before the
first submission recorded a hash. -/
def txStale : TransactionRec :=
  ⟨7, walletABDeployed, opEx, [⟨"0xb", "sigB"⟩, ⟨"0xa", "sigA"⟩], [],
    none⟩

/-- The proposal as seen by a fresh client, hash recorded. -/
def txSubmitted : TransactionRec :=
  ⟨7, walletABDeployed, opEx, [⟨"0xb", "sigB"⟩, ⟨"0xa", "sigA"⟩], [],
    some "0xaaa"⟩

/-- Counterexample to C5: with hash `0xaaa` already recorded against
proposal 7, a second submission from a stale client is offered the
execute action, proceeds, and its persistence call succeeds — the stored
hash becomes `0xbbb`, a second distinct hash, with no rejection. -/
theorem c5_counterexample :
    uiAction txStale "0xa" = UiAction.executeTxn ∧
    Effect.persistDeployed 1 7 (some "0xbbb") ∈
      (sendTransaction txStale (Except.ok (some "0xbbb"))).2 ∧
    dbSubmitted.txns = [⟨7, some "0xaaa"⟩] ∧
    (updateWalletDeployedPOST dbSubmitted 1 7 (some "0xbbb")).2 =
      PostResponse.jsonTxn ⟨7, some "0xbbb"⟩ ∧
    (updateWalletDeployedPOST dbSubmitted 1 7 (some "0xbbb")).1.txns =
      [⟨7, some "0xbbb"⟩] ∧
    ("0xbbb" : String) ≠ "0xaaa" := by
  decide

/-- Claim C5 as amended: once a `txHash` is recorded the client no longer
offers the execute action (only the Etherscan link), so resubmission is
prevented purely by client-side call discipline; the persistence endpoint
itself has no idempotency check and answers any further submission by
overwriting the stored hash, not by rejecting it. -/
theorem c5_amended_guard_is_client_side (t : TransactionRec)
    (address h : String) (hsub : t.txHash = some h) :
    uiAction t address = UiAction.viewOnEtherscan h ∧
    ∀ (db : DB) (wid : Nat) (row : DBTxn) (hnew : String),
      db.wallets.any (fun w => w.id = wid) = true →
      db.txns.find? (fun r => r.id = t.id) = some row →
      (updateWalletDeployedPOST db wid t.id (some hnew)).2 =
        PostResponse.jsonTxn { row with txHash := some hnew } := by
  refine ⟨by simp [uiAction, hsub], ?_⟩
  intro db wid row hnew hw ht
  simp [updateWalletDeployedPOST, prismaWalletSetDeployed,
    prismaTxnSetHash, hw, ht]

/-- Witness for the amended C5 on the submitted fixture proposal. -/
theorem c5_amended_witness :
    txSubmitted.txHash = some "0xaaa" ∧
    uiAction txSubmitted "0xa" = UiAction.viewOnEtherscan "0xaaa" ∧
    (updateWalletDeployedPOST dbSubmitted 1 txSubmitted.id
        (some "0xbbb")).2 =
      PostResponse.jsonTxn ⟨7, some "0xbbb"⟩ :=
  ⟨rfl,
    (c5_amended_guard_is_client_side txSubmitted "0xa" "0xaaa" rfl).1,
    (c5_amended_guard_is_client_side txSubmitted "0xa" "0xaaa" rfl).2
      dbSubmitted 1 ⟨7, some "0xaaa"⟩ "0xbbb" (by decide) (by decide)⟩

/-- Database with the fixture wallet not yet deployed and no stored row
for proposal 7, so the transaction update of the handler throws. -/
def dbNoTxnRow : DB := ⟨[walletAB], []⟩

/-- Counterexample to C6: a persistence call that fails at the
transaction-update step still flips the deployed flag of the wallet — partial
state is committed by a failed call. -/
theorem c6_counterexample :
    (updateWalletDeployedPOST dbNoTxnRow 1 7 (some "0xabc")).2 =
      PostResponse.jsonError ∧
    dbNoTxnRow.wallets = [⟨1, "0xw", ["0xa", "0xb"], 2, false⟩] ∧
    (updateWalletDeployedPOST dbNoTxnRow 1 7 (some "0xabc")).1.wallets =
      [⟨1, "0xw", ["0xa", "0xb"], 2, true⟩] ∧
    (updateWalletDeployedPOST dbNoTxnRow 1 7 (some "0xabc")).1.txns =
      [] := by
  decide

/-- Claim C6 as amended: a submit call that fails before the persistence
request commits nothing — the quorum failure performs no external call at
all, and a bundler failure performs no persistence call, so no `txHash`
is recorded; but the persistence handler is not atomic: when its
transaction update fails after its wallet update succeeded, the failed
call leaves the deployed flag of the wallet set while the stored transactions
are unchanged. -/
theorem c6_amended_no_commit_before_persist (t : TransactionRec) :
    (∀ br, (orderedSignatures t).length ≠ t.wallet.signers.length →
      sendTransaction t br =
        (Except.error SendError.incompleteQuorum, [])) ∧
    (∀ e wid tid hh, Effect.persistDeployed wid tid hh ∉
      (sendTransaction t (Except.error e)).2) ∧
    (∀ (db : DB) (wid tid : Nat) (hh : Option String),
      db.wallets.any (fun w => w.id = wid) = true →
      db.txns.find? (fun r => r.id = tid) = none →
      (updateWalletDeployedPOST db wid tid hh).2 =
          PostResponse.jsonError ∧
        (updateWalletDeployedPOST db wid tid hh).1.txns = db.txns ∧
        ∀ w ∈ (updateWalletDeployedPOST db wid tid hh).1.wallets,
          w.id = wid → w.isDeployed = true) := by
  refine ⟨?_, ?_, ?_⟩
  · intro br hq
    rw [sendTransaction]
    exact if_pos hq
  · intro e wid tid hh
    rw [sendTransaction]
    by_cases hq : (orderedSignatures t).length ≠ t.wallet.signers.length
    · rw [if_pos hq]
      simp
    · rw [if_neg hq]
      simp
  · intro db wid tid hh hw ht
    have hpost : updateWalletDeployedPOST db wid tid hh =
        (⟨db.wallets.map fun w0 =>
            if w0.id = wid then { w0 with isDeployed := true } else w0,
          db.txns⟩, PostResponse.jsonError) := by
      simp [updateWalletDeployedPOST, prismaWalletSetDeployed,
        prismaTxnSetHash, hw, ht]
    rw [hpost]
    exact ⟨rfl, rfl, fun w hw2 hid => mem_map_setDeployed hw2 hid⟩

/-- Witness for the amended C6 on the fixture proposal and the database
missing the transaction row. -/
theorem c6_amended_witness :
    (orderedSignatures txNoSigs).length ≠ txNoSigs.wallet.signers.length ∧
    dbNoTxnRow.wallets.any (fun w => w.id = 1) = true ∧
    dbNoTxnRow.txns.find? (fun r => r.id = 7) = none ∧
    sendTransaction txNoSigs (Except.ok none) =
      (Except.error SendError.incompleteQuorum, []) ∧
    (updateWalletDeployedPOST dbNoTxnRow 1 7 (some "0xabc")).2 =
      PostResponse.jsonError :=
  ⟨by decide, by decide, by decide,
    (c6_amended_no_commit_before_persist txNoSigs).1 (Except.ok none)
      (by decide),
    ((c6_amended_no_commit_before_persist txNoSigs).2.2 dbNoTxnRow 1 7
      (some "0xabc") (by decide) (by decide)).1⟩

end AAWallet
